import Mathlib

/-!
# Verification of the anicafe-menu order core (src/src/App.tsx)

A shallow embedding of the order lifecycle logic of the point-of-sale
application: catalog model, order-builder total computation and validation,
`makeOrder` normalization, the submission protocol (order plus derived
specialty record), the kitchen/server/specialty completion updates with
their undo affordances, and the audit-view analytics aggregate.

JavaScript objects keyed by strings are modelled as association lists
`List (String × α)`; object indexing is `lookup?` (first match), and
`Object.fromEntries` / object-spread insertion is `objInsert`
(overwrite-in-place for an existing key, append for a new one), matching
the JS semantics that a repeated key keeps its original position and takes
the latest value.  JS numbers that hold money are modelled as `ℚ`;
item quantities are `ℕ` (the data model's non-negative integers).
-/

set_option autoImplicit false

namespace AnicafeMenu

/-- JS object indexing `m[k]`: value of the first entry with key `k`. -/
def lookup? {α : Type} (m : List (String × α)) (k : String) : Option α :=
  match m with
  | [] => none
  | p :: rest => if p.1 = k then some p.2 else lookup? rest k

/-- Object-literal / spread insertion `{...m, [k]: v}`: overwrite the entry
for `k` in place when present, append it otherwise. -/
def objInsert {α : Type} (m : List (String × α)) (k : String) (v : α) :
    List (String × α) :=
  if (lookup? m k).isSome then
    m.map (fun p => if p.1 = k then (k, v) else p)
  else
    m ++ [(k, v)]

/-- `Object.fromEntries`: build an object from a list of key/value pairs,
later pairs overwriting earlier ones. -/
def fromEntries {α : Type} (l : List (String × α)) : List (String × α) :=
  l.foldl (fun m p => objInsert m p.1 p.2) []

/-- Stock level of a catalog item (`"high" | "low" | "none"`). -/
inductive Stock : Type
  | high
  | low
  | none
deriving DecidableEq, Repr

/-- An item of the catalog: name, price, stock level, optional flags. -/
structure MenuItem : Type where
  itemName : String
  price : ℚ
  stock : Stock
  flags : List String
deriving DecidableEq, Repr

/-- A category of the catalog (one `menu` document). -/
structure MenuCategory : Type where
  categoryName : String
  items : List MenuItem
deriving DecidableEq, Repr

/-- The catalog: the list of `menu` documents, as loaded by `App`. -/
abbrev Menu : Type := List MenuCategory

/-- The cashier form's `items` field: category name ↦ item name ↦ quantity. -/
abbrev Selection : Type := List (String × List (String × ℕ))

/-- The `itemPriceMap` of `CashierPage`: category name ↦ item name ↦ price,
built with `Object.fromEntries` from the menu. -/
def itemPriceMap (menu : Menu) : List (String × List (String × ℚ)) :=
  fromEntries
    (menu.map fun category =>
      (category.categoryName,
       fromEntries (category.items.map fun item => (item.itemName, item.price))))

/-- `itemPriceMap[categoryName][itemName]` — the double object index used in
`calculateTotal`; total with default `0`, exercised only on keys that are
present (the form's selection mirrors the catalog). -/
def priceAt (priceMap : List (String × List (String × ℚ)))
    (categoryName itemName : String) : ℚ :=
  ((lookup? priceMap categoryName).bind fun m => lookup? m itemName).getD 0

/-- `calculateTotal` of `CashierPage`: the nested `reduce` summing
`itemPriceMap[categoryName][itemName] * quantity` over the selection. -/
def calculateTotal (priceMap : List (String × List (String × ℚ)))
    (items : Selection) : ℚ :=
  items.foldl
    (fun sum category =>
      sum +
        category.2.foldl
          (fun s entry => s + priceAt priceMap category.1 entry.1 * (entry.2 : ℚ))
          0)
    0

/-- `onValuesChange`: the displayed total state, set synchronously to
`calculateTotal(values.items) - values.discount` on every change. -/
def displayedTotal (menu : Menu) (items : Selection) (discount : ℚ) : ℚ :=
  calculateTotal (itemPriceMap menu) items - discount

/-- A selection mirroring the catalog: the form's `items` initial values are
built from the menu with exactly its categories and items, and editing only
changes quantities, given here by `q`. -/
def mkSelection (menu : Menu) (q : String → String → ℕ) : Selection :=
  menu.map fun category =>
    (category.categoryName,
     category.items.map fun item =>
       (item.itemName, q category.categoryName item.itemName))

/-- The specification-side total: Σ over all (category, item) pairs of the
catalog of `quantity × price`, minus the discount. -/
def specTotal (menu : Menu) (q : String → String → ℕ) (discount : ℚ) : ℚ :=
  (menu.map fun category =>
      (category.items.map fun item =>
          (q category.categoryName item.itemName : ℚ) * item.price).sum).sum
    - discount

/-- A category sub-record of an `Order`:
`{done: boolean, items: {[itemName]: {quantity}}}`. -/
structure CategoryRec : Type where
  done : Bool
  items : List (String × ℕ)
deriving DecidableEq, Repr

/-- A built `Order` as produced by `makeOrder`, before submission (no `id`,
`timestamp` or `specialtyOnly` yet). -/
structure Order : Type where
  number : ℤ
  price : ℚ
  discount : ℚ
  notes : String
  completed : Bool
  zone : String
  categories : List (String × CategoryRec)
deriving DecidableEq, Repr

/-- The cashier form's values.  The order-number field holds an integer or
is empty (`null`); money fields are `ℚ`. -/
structure FormValues : Type where
  number : Option ℤ
  notes : String
  discount : ℚ
  zone : String
  items : Selection
deriving Repr

/-- `makeOrder`'s inner `reduce`: keep exactly the entries of one category
whose quantity is positive, preserving order (`[...items, [itemName,
{quantity}]]`). -/
def positiveItems (category : List (String × ℕ)) : List (String × ℕ) :=
  category.foldl
    (fun items entry => if entry.2 > 0 then items ++ [entry] else items)
    []

/-- `makeOrder`'s outer `reduce`: keep a category only when its projection
to positive-quantity items is non-empty; each kept category gets
`done = false`. -/
def makeOrderCategories (items : Selection) : List (String × CategoryRec) :=
  items.foldl
    (fun categories category =>
      let newItems := positiveItems category.2
      if newItems.length > 0 then
        categories ++ [(category.1, ⟨false, newItems⟩)]
      else
        categories)
    []

/-- `makeOrder` of `CashierPage`: build the candidate `Order` from the form
values and the current displayed total. -/
def makeOrder (formValues : FormValues) (total : ℚ) : Order :=
  { number := formValues.number.getD 0
    price := total
    discount := formValues.discount
    notes := formValues.notes
    completed := false
    zone := formValues.zone
    categories := makeOrderCategories formValues.items }

/-- The `number` validator: `value && value > 0 ? null : "Order number is
required"` — `null` and `0` are falsy, so the error fires exactly when the
value is absent, zero or negative. -/
def numberError (value : Option ℤ) : Option String :=
  match value with
  | .none => some "Order number is required"
  | .some n => if n ≠ 0 ∧ n > 0 then none else some "Order number is required"

/-- The `discount` validator: `total >= 0 ? null : "Discount greater than
order total"`, where `total` is the displayed (post-discount) total. -/
def discountError (total : ℚ) : Option String :=
  if total ≥ 0 then none else some "Discount greater than order total"

/-- A submit is accepted exactly when both field validators return `null`. -/
def formAccepted (menu : Menu) (v : FormValues) : Bool :=
  (numberError v.number).isNone &&
    (discountError (displayedTotal menu v.items v.discount)).isNone

/-- An `orders` document as persisted by `submitOrder`: the built `Order`
plus the server timestamp (modelled as a tick) and the derived
`specialtyOnly` flag. -/
structure StoredOrder : Type where
  number : ℤ
  price : ℚ
  discount : ℚ
  notes : String
  completed : Bool
  zone : String
  categories : List (String × CategoryRec)
  specialtyOnly : Bool
  timestamp : ℕ
deriving DecidableEq, Repr

/-- A `specialty` document. -/
structure SpecialtyDoc : Type where
  number : ℤ
  notes : String
  done : Bool
  timestamp : ℕ
  items : List (String × ℕ)
deriving DecidableEq, Repr

/-- The spread `{...order, timestamp: serverTimestamp(), specialtyOnly:
Object.keys(order.categories).length === 1 && order.categories["Specialty"]
!== undefined}` in `submitOrder`. -/
def mkSubmittedOrder (order : Order) (t : ℕ) : StoredOrder :=
  { number := order.number
    price := order.price
    discount := order.discount
    notes := order.notes
    completed := order.completed
    zone := order.zone
    categories := order.categories
    specialtyOnly :=
      order.categories.length == 1 && (lookup? order.categories "Specialty").isSome
    timestamp := t }

/-- The `specialty` document built inside `submitOrder` when
`order.categories["Specialty"] !== undefined`, from that category's items. -/
def mkSpecialtyDoc (order : Order) (specialtyCat : CategoryRec) (t : ℕ) :
    SpecialtyDoc :=
  { number := order.number
    notes := order.notes
    done := false
    timestamp := t
    items := specialtyCat.items }

/-- One store write issued by `submitOrder`: `addDoc(collection(db,
"orders"), ...)` (the store assigns and returns the document id), or
`setDoc(doc(db, "specialty", id), ...)` at an explicit id. -/
inductive StoreOp : Type
  | createOrder (doc : StoredOrder)
  | setSpecialty (id : String) (doc : SpecialtyDoc)
deriving DecidableEq, Repr

/-- The write sequence of `submitOrder`: create the order document first;
only in the continuation that receives the assigned id (`.then(docRef =>
...)`), and only if a "Specialty" category is present, set the specialty
document at that same id. -/
def submitOrderOps (order : Order) (assignedId : String) (t : ℕ) :
    List StoreOp :=
  StoreOp.createOrder (mkSubmittedOrder order t) ::
    (match lookup? order.categories "Specialty" with
     | some specialtyCat => [StoreOp.setSpecialty assignedId (mkSpecialtyDoc order specialtyCat t)]
     | none => [])

/-- The specialty records created by a write sequence, with their ids. -/
def specialtySets (ops : List StoreOp) : List (String × SpecialtyDoc) :=
  ops.filterMap fun op =>
    match op with
    | .createOrder _ => none
    | .setSpecialty id doc => some (id, doc)

/-- The `orders` collection: document id ↦ stored order. -/
abbrev OrdersDb : Type := List (String × StoredOrder)

/-- The dotted-path update `{["categories.<name>.done"]: value}` applied to
one stored order; it targets a category that exists on the document (the
views only offer the toggle for rendered categories). -/
def setCategoryDone (o : StoredOrder) (categoryName : String) (value : Bool) :
    StoredOrder :=
  { o with
    categories :=
      o.categories.map fun p =>
        if p.1 = categoryName then (p.1, { p.2 with done := value }) else p }

/-- `checkCategory` of the kitchen view (`OrderPage`): `updateDoc` of
`categories.<categoryName>.done` on the order with the given id. -/
def checkCategory (db : OrdersDb) (orderId categoryName : String)
    (value : Bool) : OrdersDb :=
  db.map fun p =>
    if p.1 = orderId then (p.1, setCategoryDone p.2 categoryName value) else p

/-- The update `{completed: value}` applied to the order with the given id
(`completeOrder` of `ServerPage` and its undo button). -/
def setCompleted (db : OrdersDb) (orderId : String) (value : Bool) : OrdersDb :=
  db.map fun p =>
    if p.1 = orderId then (p.1, { p.2 with completed := value }) else p

/-- One targeted field update issued by the completion/undo machinery. -/
inductive UpdateOp : Type
  | specialtyDone (id : String) (value : Bool)
  | orderCategoryDone (id : String) (categoryName : String) (value : Bool)
  | orderCompleted (id : String) (value : Bool)
deriving DecidableEq, Repr

/-- The dual write of `completeSpecialtyOrder` (and, with `value = false`,
of its undo button): `Promise.all` of the specialty record's `done` update
and the parent order's `categories.Specialty.done` update. -/
def specialtyDualWrite (orderId : String) (value : Bool) : List UpdateOp :=
  [UpdateOp.specialtyDone orderId value,
   UpdateOp.orderCategoryDone orderId "Specialty" value]

/-- Notification key of the server view's order-level undo toast
(`notifications.show({id: orderId, ...})`). -/
def orderNotifId (orderId : String) : String := orderId

/-- Notification key of the specialty view's undo toast
(`notifications.show({id: orderId + "specialty", ...})`). -/
def specialtyNotifId (orderId : String) : String := orderId ++ "specialty"

/-- The `specialty` collection: document id ↦ specialty record. -/
abbrev SpecialtyDb : Type := List (String × SpecialtyDoc)

/-- Both live collections, the single shared mutable resource. -/
structure Db : Type where
  orders : OrdersDb
  specialty : SpecialtyDb
deriving Repr

/-- Apply one targeted field update to the store. -/
def applyUpdate (db : Db) (op : UpdateOp) : Db :=
  match op with
  | .specialtyDone id value =>
      { db with
        specialty :=
          db.specialty.map fun p =>
            if p.1 = id then (p.1, { p.2 with done := value }) else p }
  | .orderCategoryDone id categoryName value =>
      { db with orders := checkCategory db.orders id categoryName value }
  | .orderCompleted id value =>
      { db with orders := setCompleted db.orders id value }

/-- Apply a batch of updates in sequence. -/
def applyUpdates (db : Db) (ops : List UpdateOp) : Db :=
  ops.foldl applyUpdate db

/-- The server view with its undo toasts: the orders collection plus the
live notifications, keyed by notification id with the time they were
shown (each auto-closes 8000 ms after that). -/
structure ServerView : Type where
  orders : OrdersDb
  toasts : List (String × ℕ)
deriving Repr

/-- The undo window of the completion toasts, in milliseconds
(`autoClose: 8000`). -/
def undoWindowMs : ℕ := 8000

/-- `completeOrder` of `ServerPage` at time `now`: set `completed = true`
on the order, then show the undo toast keyed by the order's id
(`notifications.show` replaces a toast that already uses the id). -/
def completeOrder (s : ServerView) (orderId : String) (now : ℕ) : ServerView :=
  { orders := setCompleted s.orders orderId true
    toasts := objInsert s.toasts (orderNotifId orderId) now }

/-- Auto-close at time `now`: a toast shown at `t0` is withdrawn once
`now ≥ t0 + 8000`. -/
def pruneToasts (s : ServerView) (now : ℕ) : ServerView :=
  { s with toasts := s.toasts.filter fun p => now < p.2 + undoWindowMs }

/-- The undo affordance for an order is available while its toast is live. -/
def undoAvailable (s : ServerView) (orderId : String) : Bool :=
  (lookup? s.toasts (orderNotifId orderId)).isSome

/-- Pressing Undo: only possible while the toast is shown; it sets
`completed = false` on the order and hides the toast
(`hideNotification(orderId)`).  With no toast there is nothing to press. -/
def clickUndo (s : ServerView) (orderId : String) : ServerView :=
  if undoAvailable s orderId then
    { orders := setCompleted s.orders orderId false
      toasts := s.toasts.filter fun p => ¬p.1 = orderNotifId orderId }
  else s

/-- The three aggregate keys seeded by the audit view. -/
def totalOrdersKey : String := "Total Orders"

/-- The aggregate key for the item-count total. -/
def totalItemsKey : String := "Total Items"

/-- The aggregate key for the revenue total. -/
def totalRevenueKey : String := "Total Revenue"

/-- The audit view's initial aggregate: the three totals at `0`, then every
catalog item seeded at `0` (`Object.fromEntries(menu.flatMap(...))` spread
into the literal). -/
def seedAnalytics (menu : Menu) : List (String × ℚ) :=
  (menu.flatMap fun category =>
      category.items.map fun item => (item.itemName, (0 : ℚ))).foldl
    (fun m p => objInsert m p.1 p.2)
    [(totalOrdersKey, 0), (totalItemsKey, 0), (totalRevenueKey, 0)]

/-- `m[k] ?? 0`: aggregate read with default `0`. -/
def lookup0 (m : List (String × ℚ)) (k : String) : ℚ :=
  (lookup? m k).getD 0

/-- `k`-increment `m[k] = m[k] + δ` on the aggregate map. -/
def bumpEntry (m : List (String × ℚ)) (k : String) (δ : ℚ) :
    List (String × ℚ) :=
  objInsert m k (lookup0 m k + δ)

/-- One item entry of one order folded into the aggregate: the spread
`map = {...map, [totalItemsKey]: map[totalItemsKey] + quantity, [itemName]:
(map[itemName] ?? 0) + quantity}` — both reads are from the map before the
spread. -/
def itemStep (m : List (String × ℚ)) (itemName : String) (quantity : ℕ) :
    List (String × ℚ) :=
  objInsert (objInsert m totalItemsKey (lookup0 m totalItemsKey + quantity))
    itemName (lookup0 m itemName + quantity)

/-- Fold the item entries of one category into the aggregate. -/
def itemsFold (m : List (String × ℚ)) (entries : List (String × ℕ)) :
    List (String × ℚ) :=
  entries.foldl (fun m entry => itemStep m entry.1 entry.2) m

/-- Fold one order document into the aggregate: `map["Total Orders"]++`,
`map["Total Revenue"] += data.price`, then every item entry of every
category. -/
def analyticsStep (m : List (String × ℚ)) (o : StoredOrder) :
    List (String × ℚ) :=
  o.categories.foldl (fun m category => itemsFold m category.2.items)
    (bumpEntry (bumpEntry m totalOrdersKey 1) totalRevenueKey o.price)

/-- The audit view's aggregate, recomputed from scratch over the snapshot
(`AllOrdersPage`'s `onSnapshot` handler). -/
def analytics (menu : Menu) (orders : List StoredOrder) :
    List (String × ℚ) :=
  orders.foldl analyticsStep (seedAnalytics menu)

/-- Quantity of item `x` in one order, summed over all its categories. -/
def orderItemQty (o : StoredOrder) (x : String) : ℚ :=
  (o.categories.map fun category =>
      ((category.2.items.filter fun entry => entry.1 = x).map
          fun entry => (entry.2 : ℚ)).sum).sum

/-- Total quantity of all items of one order across its categories. -/
def orderQty (o : StoredOrder) : ℚ :=
  (o.categories.map fun category =>
      (category.2.items.map fun entry => (entry.2 : ℚ)).sum).sum

/-- An order mentions none of the three reserved aggregate keys among its
item names. -/
def noReservedItemNames (o : StoredOrder) : Prop :=
  ∀ category ∈ o.categories, ∀ entry ∈ category.2.items,
    entry.1 ≠ totalOrdersKey ∧ entry.1 ≠ totalItemsKey ∧ entry.1 ≠ totalRevenueKey

/-! ## Association-list lemmas -/

@[simp]
theorem lookup?_nil {α : Type} (k : String) : lookup? ([] : List (String × α)) k = none :=
  rfl

@[simp]
theorem lookup?_cons {α : Type} (p : String × α) (rest : List (String × α)) (k : String) :
    lookup? (p :: rest) k = if p.1 = k then some p.2 else lookup? rest k :=
  rfl

theorem lookup?_isSome_iff_mem {α : Type} (m : List (String × α)) (k : String) :
    (lookup? m k).isSome ↔ k ∈ m.map Prod.fst := by
  induction m with
  | nil => simp
  | cons p rest ih =>
      by_cases h : p.1 = k
      · simp [h]
      · have h' : ¬k = p.1 := fun hk => h hk.symm
        simp [h, h', ih]

theorem lookup?_append_left {α : Type} {a : List (String × α)} {k : String}
    (b : List (String × α)) (h : (lookup? a k).isSome) :
    lookup? (a ++ b) k = lookup? a k := by
  induction a with
  | nil => simp at h
  | cons p rest ih =>
      by_cases hp : p.1 = k
      · simp [hp]
      · simp only [List.cons_append, lookup?_cons, hp, if_false] at h ⊢
        exact ih h

theorem lookup?_append_right {α : Type} {a : List (String × α)} {k : String}
    (b : List (String × α)) (h : lookup? a k = none) :
    lookup? (a ++ b) k = lookup? b k := by
  induction a with
  | nil => simp
  | cons p rest ih =>
      by_cases hp : p.1 = k
      · simp [hp] at h
      · simp only [List.cons_append, lookup?_cons, hp, if_false] at h ⊢
        exact ih h

theorem lookup?_replace_self {α : Type} {m : List (String × α)} {k : String}
    (v : α) (h : (lookup? m k).isSome) :
    lookup? (m.map fun p => if p.1 = k then (k, v) else p) k = some v := by
  induction m with
  | nil => simp at h
  | cons p rest ih =>
      by_cases hp : p.1 = k
      · simp [hp]
      · simp only [lookup?_cons, hp, if_false] at h
        simpa [hp] using ih h

theorem lookup?_replace_ne {α : Type} (m : List (String × α)) {k k' : String}
    (v : α) (h : k' ≠ k) :
    lookup? (m.map fun p => if p.1 = k then (k, v) else p) k' = lookup? m k' := by
  induction m with
  | nil => simp
  | cons p rest ih =>
      by_cases hp : p.1 = k
      · have : ¬k = k' := fun hk => h hk.symm
        simp [hp, this, ih]
      · simp [hp, ih]

@[simp]
theorem lookup?_objInsert_self {α : Type} (m : List (String × α)) (k : String) (v : α) :
    lookup? (objInsert m k v) k = some v := by
  unfold objInsert
  by_cases h : (lookup? m k).isSome
  · simpa [h] using lookup?_replace_self v h
  · have hn : lookup? m k = none := Option.not_isSome_iff_eq_none.mp h
    simp [h, lookup?_append_right _ hn]

theorem lookup?_objInsert_ne {α : Type} (m : List (String × α)) {k k' : String}
    (v : α) (h : k' ≠ k) :
    lookup? (objInsert m k v) k' = lookup? m k' := by
  unfold objInsert
  by_cases hs : (lookup? m k).isSome
  · simpa [hs] using lookup?_replace_ne m v h
  · by_cases hs' : (lookup? m k').isSome
    · simp [hs, lookup?_append_left _ hs']
    · have hn : lookup? m k' = none := Option.not_isSome_iff_eq_none.mp hs'
      have : ¬k = k' := fun hk => h hk.symm
      simp [hs, lookup?_append_right _ hn, hn, this]

theorem mem_keys_objInsert {α : Type} (m : List (String × α)) (k : String)
    (v : α) (x : String) :
    x ∈ (objInsert m k v).map Prod.fst ↔ x ∈ m.map Prod.fst ∨ x = k := by
  unfold objInsert
  by_cases hs : (lookup? m k).isSome
  · have hk : k ∈ m.map Prod.fst := (lookup?_isSome_iff_mem m k).mp hs
    have hkeys : ((m.map fun p => if p.1 = k then (k, v) else p).map Prod.fst) =
        m.map Prod.fst := by
      rw [List.map_map]
      refine List.map_congr_left fun p _ => ?_
      by_cases hp : p.1 = k <;> simp [hp]
    simp only [hs, if_true, hkeys]
    constructor
    · exact Or.inl
    · rintro (h | rfl)
      · exact h
      · exact hk
  · simp [hs]

theorem lookup?_of_mem_nodup {α : Type} {m : List (String × α)} {k : String}
    {v : α} (hmem : (k, v) ∈ m) (hnd : (m.map Prod.fst).Nodup) :
    lookup? m k = some v := by
  induction m with
  | nil => simp at hmem
  | cons p rest ih =>
      simp only [List.map_cons, List.nodup_cons] at hnd
      rcases List.mem_cons.mp hmem with h | h
      · simp [← h]
      · have hne : ¬p.1 = k := by
          intro hk
          exact hnd.1 (hk ▸ (List.mem_map.mpr ⟨(k, v), h, rfl⟩))
        simp [hne, ih h hnd.2]

theorem foldl_objInsert_eq_append {α : Type} (l : List (String × α)) :
    ∀ acc : List (String × α), (l.map Prod.fst).Nodup →
      (∀ x ∈ l.map Prod.fst, x ∉ acc.map Prod.fst) →
      l.foldl (fun m p => objInsert m p.1 p.2) acc = acc ++ l := by
  induction l with
  | nil => intro acc _ _; simp
  | cons p rest ih =>
      intro acc hnd hdisj
      simp only [List.map_cons, List.nodup_cons] at hnd
      have hnew : lookup? acc p.1 = none := by
        rw [← Option.not_isSome_iff_eq_none, lookup?_isSome_iff_mem]
        exact hdisj p.1 (by simp)
      have hins : objInsert acc p.1 p.2 = acc ++ [p] := by
        unfold objInsert
        simp [hnew]
      rw [List.foldl_cons, hins, ih (acc ++ [p]) hnd.2 ?_, List.append_assoc,
        List.singleton_append]
      intro x hx hmem
      rw [List.map_append] at hmem
      rcases List.mem_append.mp hmem with h | h
      · exact hdisj x (List.mem_cons_of_mem _ hx) h
      · have hxp : x = p.1 := by simpa using h
        exact hnd.1 (hxp ▸ hx)

theorem fromEntries_eq_self {α : Type} (l : List (String × α))
    (hnd : (l.map Prod.fst).Nodup) : fromEntries l = l := by
  unfold fromEntries
  simpa using foldl_objInsert_eq_append l [] hnd (by simp)

theorem foldl_add_eq_sum {α : Type} (f : α → ℚ) (l : List α) :
    ∀ a : ℚ, l.foldl (fun s x => s + f x) a = a + (l.map f).sum := by
  induction l with
  | nil => intro a; simp
  | cons x rest ih => intro a; simp [ih, add_assoc]

/-! ## C1: displayed total -/

theorem itemPriceMap_eq (menu : Menu)
    (hc : (menu.map MenuCategory.categoryName).Nodup) :
    itemPriceMap menu =
      menu.map fun category =>
        (category.categoryName,
         fromEntries (category.items.map fun item => (item.itemName, item.price))) := by
  unfold itemPriceMap
  refine fromEntries_eq_self _ ?_
  rw [List.map_map]
  exact hc

theorem priceAt_itemPriceMap {menu : Menu} {c : MenuCategory} {i : MenuItem}
    (hc : (menu.map MenuCategory.categoryName).Nodup)
    (hi : (c.items.map MenuItem.itemName).Nodup)
    (hcm : c ∈ menu) (him : i ∈ c.items) :
    priceAt (itemPriceMap menu) c.categoryName i.itemName = i.price := by
  have hinner :
      fromEntries (c.items.map fun item => (item.itemName, item.price)) =
        c.items.map fun item => (item.itemName, item.price) := by
    refine fromEntries_eq_self _ ?_
    rw [List.map_map]
    exact hi
  have houter :
      lookup? (itemPriceMap menu) c.categoryName =
        some (fromEntries (c.items.map fun item => (item.itemName, item.price))) := by
    rw [itemPriceMap_eq menu hc]
    refine lookup?_of_mem_nodup (List.mem_map.mpr ⟨c, hcm, rfl⟩) ?_
    rw [List.map_map]
    exact hc
  have hitem :
      lookup? (c.items.map fun item => (item.itemName, item.price)) i.itemName =
        some i.price := by
    refine lookup?_of_mem_nodup (List.mem_map.mpr ⟨i, him, rfl⟩) ?_
    rw [List.map_map]
    exact hi
  unfold priceAt
  rw [houter, hinner]
  simp [hitem]

theorem calculateTotal_eq_sum (pm : List (String × List (String × ℚ)))
    (items : Selection) :
    calculateTotal pm items =
      (items.map fun category =>
          (category.2.map fun entry =>
              priceAt pm category.1 entry.1 * (entry.2 : ℚ)).sum).sum := by
  unfold calculateTotal
  rw [foldl_add_eq_sum
    (fun category : String × List (String × ℕ) =>
      category.2.foldl
        (fun s entry => s + priceAt pm category.1 entry.1 * (entry.2 : ℚ)) 0),
    zero_add]
  refine congrArg List.sum (List.map_congr_left fun category _ => ?_)
  rw [foldl_add_eq_sum
    (fun entry : String × ℕ => priceAt pm category.1 entry.1 * (entry.2 : ℚ)),
    zero_add]

/-- C1: for every catalog (with its unique category and item names) and
every quantity assignment, the displayed total — the state written by
`onValuesChange` on each selection or discount change — equals the sum over
all (category, item) pairs of `quantity × price`, minus the discount. -/
theorem displayedTotal_eq_specTotal (menu : Menu) (q : String → String → ℕ)
    (discount : ℚ)
    (hc : (menu.map MenuCategory.categoryName).Nodup)
    (hi : ∀ c ∈ menu, (c.items.map MenuItem.itemName).Nodup) :
    displayedTotal menu (mkSelection menu q) discount = specTotal menu q discount := by
  unfold displayedTotal specTotal
  rw [calculateTotal_eq_sum]
  congr 1
  unfold mkSelection
  rw [List.map_map]
  refine congrArg List.sum (List.map_congr_left fun c hcm => ?_)
  simp only [Function.comp]
  rw [List.map_map]
  refine congrArg List.sum (List.map_congr_left fun i him => ?_)
  simp only [Function.comp]
  rw [priceAt_itemPriceMap hc (hi c hcm) hcm him, mul_comm]

/-- The §8 scenario catalog: Food/Burger at 10, Drinks/Soda at 2. -/
def scenarioMenu : Menu :=
  [⟨"Food", [⟨"Burger", 10, Stock.high, []⟩]⟩,
   ⟨"Drinks", [⟨"Soda", 2, Stock.high, []⟩]⟩]

/-- The §8 scenario quantities: 2 burgers, 1 soda. -/
def scenarioQty (categoryName itemName : String) : ℕ :=
  if categoryName = "Food" ∧ itemName = "Burger" then 2
  else if categoryName = "Drinks" ∧ itemName = "Soda" then 1
  else 0

/-- C1 witness: the theorem applied to the §8 scenario, whose hypotheses
hold by computation. -/
theorem displayedTotal_eq_specTotal_witness :
    ((scenarioMenu.map MenuCategory.categoryName).Nodup ∧
      ∀ c ∈ scenarioMenu, (c.items.map MenuItem.itemName).Nodup) ∧
    displayedTotal scenarioMenu (mkSelection scenarioMenu scenarioQty) 1 =
      specTotal scenarioMenu scenarioQty 1 :=
  ⟨⟨by decide, by decide⟩,
   displayedTotal_eq_specTotal scenarioMenu scenarioQty 1 (by decide) (by decide)⟩

/-! ## C3: the `specialtyOnly` flag -/

/-- C3: the persisted order's `specialtyOnly` flag is true exactly when the
categories map has exactly one key and that key is `"Specialty"`. -/
theorem specialtyOnly_iff (order : Order) (t : ℕ) :
    (mkSubmittedOrder order t).specialtyOnly = true ↔
      order.categories.map Prod.fst = ["Specialty"] := by
  show (order.categories.length == 1 &&
      (lookup? order.categories "Specialty").isSome) = true ↔ _
  rcases order.categories with _ | ⟨p, _ | ⟨p2, rest⟩⟩
  · simp
  · by_cases hp : p.1 = "Specialty"
    · simp [hp]
    · simp [hp]
  · simp only [List.length_cons, List.map_cons]
    constructor
    · intro h
      have := (Bool.and_eq_true _ _).mp h
      simp only [beq_iff_eq] at this
      omega
    · intro h
      have := congrArg List.length h
      simp at this

/-! ## C4: `makeOrder` normalization -/

/-- Modelled from the spec's words, for comparison with `makeOrder`:
project the selection to the items with positive quantity and drop the
categories left empty, each surviving category getting `done = false`. -/
def specOrderCategories (items : Selection) : List (String × CategoryRec) :=
  items.filterMap fun category =>
    if (category.2.filter fun entry => 0 < entry.2) = [] then none
    else some (category.1, ⟨false, category.2.filter fun entry => 0 < entry.2⟩)

theorem foldl_opt_append {α β : Type} (f : α → Option β) :
    ∀ (l : List α) (acc : List β),
      l.foldl (fun bs a => (f a).elim bs fun b => bs ++ [b]) acc =
        acc ++ l.filterMap f := by
  intro l
  induction l with
  | nil => intro acc; simp
  | cons a rest ih =>
      intro acc
      rw [List.foldl_cons, List.filterMap_cons]
      cases hf : f a with
      | none => simp [hf, ih]
      | some b => simp [hf, ih]

theorem positiveItems_eq_filter (category : List (String × ℕ)) :
    positiveItems category = category.filter fun entry => 0 < entry.2 := by
  unfold positiveItems
  suffices h : ∀ acc : List (String × ℕ),
      category.foldl (fun items entry => if entry.2 > 0 then items ++ [entry] else items)
          acc =
        acc ++ category.filter (fun entry => 0 < entry.2) by
    simpa using h []
  induction category with
  | nil => intro acc; simp
  | cons e rest ih =>
      intro acc
      by_cases he : 0 < e.2
      · simp [he, ih, List.filter_cons]
      · simp [he, Nat.not_lt_of_le (Nat.le_of_not_lt he), ih, List.filter_cons,
          Nat.le_zero.mp (Nat.le_of_not_lt he)]

theorem makeOrderCategories_eq (items : Selection) :
    makeOrderCategories items = specOrderCategories items := by
  unfold makeOrderCategories specOrderCategories
  have hfun :
      (fun (categories : List (String × CategoryRec))
          (category : String × List (String × ℕ)) =>
        let newItems := positiveItems category.2
        if newItems.length > 0 then
          categories ++ [(category.1, ⟨false, newItems⟩)]
        else categories) =
      fun categories category =>
        ((fun category : String × List (String × ℕ) =>
            if (category.2.filter fun entry => 0 < entry.2) = [] then none
            else
              some
                (category.1,
                 (⟨false, category.2.filter fun entry => 0 < entry.2⟩ :
                   CategoryRec))) category).elim
          categories (fun b => categories ++ [b]) := by
    funext categories category
    simp only [positiveItems_eq_filter]
    by_cases hc : (category.2.filter fun entry => 0 < entry.2) = []
    · simp [hc]
    · simp [hc, List.length_pos.mpr hc]
  rw [hfun,
    foldl_opt_append
      (fun category : String × List (String × ℕ) =>
        if (category.2.filter fun entry => 0 < entry.2) = [] then none
        else
          some
            (category.1,
             (⟨false, category.2.filter fun entry => 0 < entry.2⟩ : CategoryRec)))]
  simp

/-- C4: the built order keeps exactly the positive-quantity items, drops
categories left empty (so no category of the result has an empty items
map), marks every surviving category `done = false`, and initializes
`completed = false`. -/
theorem makeOrder_spec (v : FormValues) (total : ℚ) :
    (makeOrder v total).completed = false ∧
    (makeOrder v total).categories = specOrderCategories v.items ∧
    ∀ c ∈ (makeOrder v total).categories,
      c.2.done = false ∧ c.2.items ≠ [] ∧ ∀ e ∈ c.2.items, 0 < e.2 := by
  refine ⟨rfl, makeOrderCategories_eq v.items, ?_⟩
  intro c hc
  rw [show (makeOrder v total).categories = makeOrderCategories v.items from rfl,
    makeOrderCategories_eq v.items] at hc
  unfold specOrderCategories at hc
  rcases List.mem_filterMap.mp hc with ⟨category, _, heq⟩
  by_cases hpos : (category.2.filter fun entry => 0 < entry.2) = []
  · rw [if_pos hpos] at heq
    cases heq
  · rw [if_neg hpos] at heq
    cases heq
    refine ⟨rfl, hpos, ?_⟩
    intro e he
    simp only at he
    exact of_decide_eq_true (List.mem_filter.mp he).2

/-- A sample form: two burgers, zero fries, zero sodas. -/
def sampleForm : FormValues :=
  { number := some 7
    notes := ""
    discount := 0
    zone := "Undecided"
    items := [("Food", [("Burger", 2), ("Fries", 0)]), ("Drinks", [("Soda", 0)])] }

/-- C4 witness: on the sample form the built order keeps only the burger
entry and drops the drinks category. -/
theorem makeOrder_spec_witness :
    (makeOrder sampleForm 20).completed = false ∧
    (makeOrder sampleForm 20).categories =
      [("Food", ⟨false, [("Burger", 2)]⟩)] :=
  ⟨(makeOrder_spec sampleForm 20).1,
   ((makeOrder_spec sampleForm 20).2.1).trans (by decide)⟩

/-! ## C5: submit validation -/

/-- C5: a submit is accepted exactly when the order number is a positive
integer and the discount does not exceed the pre-discount sum; each failure
is reported as the corresponding inline message (a returned value, not an
exception). -/
theorem validation_spec (menu : Menu) (v : FormValues) :
    (formAccepted menu v = true ↔
        (∃ n, v.number = some n ∧ 0 < n) ∧
          v.discount ≤ calculateTotal (itemPriceMap menu) v.items) ∧
    ((¬∃ n, v.number = some n ∧ 0 < n) →
        numberError v.number = some "Order number is required") ∧
    (calculateTotal (itemPriceMap menu) v.items < v.discount →
        discountError (displayedTotal menu v.items v.discount) =
          some "Discount greater than order total") := by
  have hdisc :
      displayedTotal menu v.items v.discount ≥ 0 ↔
        v.discount ≤ calculateTotal (itemPriceMap menu) v.items := by
    unfold displayedTotal
    constructor
    · intro h; linarith
    · intro h; linarith
  refine ⟨?_, ?_, ?_⟩
  · unfold formAccepted
    rw [Bool.and_eq_true]
    constructor
    · rintro ⟨h1, h2⟩
      constructor
      · cases hv : v.number with
        | none => rw [hv] at h1; simp [numberError] at h1
        | some n =>
            rw [hv] at h1
            by_cases hn : n ≠ 0 ∧ n > 0
            · exact ⟨n, rfl, hn.2⟩
            · simp [numberError, hn] at h1
      · unfold discountError at h2
        by_cases hd : displayedTotal menu v.items v.discount ≥ 0
        · exact hdisc.mp hd
        · simp [hd] at h2
    · rintro ⟨⟨n, hn, hpos⟩, hle⟩
      constructor
      · simp [numberError, hn, hpos, Int.ne_of_gt hpos]
      · simp [discountError, hdisc.mpr hle]
  · intro h
    cases hv : v.number with
    | none => simp [numberError]
    | some n =>
        have : ¬(n ≠ 0 ∧ n > 0) := fun hc => h ⟨n, hv, hc.2⟩
        simp [numberError, this]
  · intro h
    have : ¬displayedTotal menu v.items v.discount ≥ 0 := by
      intro hge
      exact absurd (hdisc.mp hge) (not_le.mpr h)
    simp [discountError, this]

/-- C5 witness: the sample form with order number 7 and zero discount is
accepted against the scenario catalog. -/
theorem validation_spec_witness :
    formAccepted scenarioMenu sampleForm = true :=
  (validation_spec scenarioMenu sampleForm).1.mpr
    ⟨⟨7, rfl, by decide⟩, by
      simp [sampleForm, calculateTotal, itemPriceMap, scenarioMenu, fromEntries,
        objInsert, lookup?, priceAt]⟩

/-! ## C2 and C10: the submission protocol -/

/-- C2: when the built order has a "Specialty" category, the write sequence
creates exactly one specialty record, keyed by the order's newly assigned
identifier, with `done = false` and exactly that category's items, and the
specialty write appears strictly after the order creation that produced the
identifier; with no "Specialty" category no specialty record is created. -/
theorem submitOrder_specialty_spec (order : Order) (assignedId : String) (t : ℕ) :
    (∀ cat, lookup? order.categories "Specialty" = some cat →
        specialtySets (submitOrderOps order assignedId t) =
          [(assignedId, mkSpecialtyDoc order cat t)] ∧
        (mkSpecialtyDoc order cat t).done = false ∧
        (mkSpecialtyDoc order cat t).items = cat.items) ∧
    (lookup? order.categories "Specialty" = none →
        specialtySets (submitOrderOps order assignedId t) = []) ∧
    (submitOrderOps order assignedId t).head? =
      some (StoreOp.createOrder (mkSubmittedOrder order t)) ∧
    (∀ n id doc,
        (submitOrderOps order assignedId t)[n]? =
          some (StoreOp.setSpecialty id doc) →
        0 < n ∧ id = assignedId) := by
  refine ⟨?_, ?_, ?_, ?_⟩
  · intro cat hcat
    simp [submitOrderOps, specialtySets, hcat, mkSpecialtyDoc]
  · intro hnone
    simp [submitOrderOps, specialtySets, hnone]
  · simp [submitOrderOps]
  · intro n id doc h
    unfold submitOrderOps at h
    match n with
    | 0 => simp at h
    | Nat.succ m =>
        refine ⟨Nat.succ_pos m, ?_⟩
        cases hcat : lookup? order.categories "Specialty" with
        | none =>
            rw [hcat] at h
            simp at h
        | some cat =>
            rw [hcat] at h
            match m with
            | 0 =>
                injection h with h'
                injection h' with h1 h2
                exact h1.symm
            | Nat.succ k => simp at h

/-- A specialty-only order: one custom cake, order number 42 (§8 scenario). -/
def specialtyOrder : Order :=
  { number := 42
    price := 15
    discount := 0
    notes := "no nuts"
    completed := false
    zone := "Stage"
    categories := [("Specialty", ⟨false, [("CustomCake", 1)]⟩)] }

/-- C2 witness: submitting the specialty-only order creates exactly one
specialty record at the assigned identifier. -/
theorem submitOrder_specialty_spec_witness :
    specialtySets (submitOrderOps specialtyOrder "doc1" 3) =
      [("doc1", mkSpecialtyDoc specialtyOrder ⟨false, [("CustomCake", 1)]⟩ 3)] :=
  ((submitOrder_specialty_spec specialtyOrder "doc1" 3).1 _ (by decide)).1

/-- C10: the specialty record created at submission carries the parent
order's `number` and `notes` unchanged. -/
theorem specialty_carries_number_notes (order : Order) (assignedId : String)
    (t : ℕ) (cat : CategoryRec)
    (h : lookup? order.categories "Specialty" = some cat) :
    ∀ e ∈ specialtySets (submitOrderOps order assignedId t),
      e.2.number = order.number ∧ e.2.notes = order.notes := by
  intro e he
  simp [submitOrderOps, specialtySets, h] at he
  rw [he]
  exact ⟨rfl, rfl⟩

/-- C10 witness: the specialty record of the sample submission shows order
number 42 and the parent's notes. -/
theorem specialty_carries_number_notes_witness :
    (mkSpecialtyDoc specialtyOrder ⟨false, [("CustomCake", 1)]⟩ 4).number =
      specialtyOrder.number ∧
    (mkSpecialtyDoc specialtyOrder ⟨false, [("CustomCake", 1)]⟩ 4).notes =
      specialtyOrder.notes :=
  specialty_carries_number_notes specialtyOrder "doc2" 4
    ⟨false, [("CustomCake", 1)]⟩ (by decide)
    ("doc2", mkSpecialtyDoc specialtyOrder ⟨false, [("CustomCake", 1)]⟩ 4)
    (by decide)

/-! ## C7: kitchen per-category toggle -/

/-- C7: `checkCategory` leaves every other order untouched, and on the
targeted order changes only `categories.<name>.done`: every scalar field —
`completed` in particular — is unchanged, the other categories are
unchanged, and the targeted category keeps its items and gets the new
`done` value. -/
theorem checkCategory_frame (db : OrdersDb) (orderId categoryName : String)
    (value : Bool) (o : StoredOrder) (h : (orderId, o) ∈ db) :
    (∀ p ∈ db, p.1 ≠ orderId →
        p ∈ checkCategory db orderId categoryName value) ∧
    (orderId, setCategoryDone o categoryName value) ∈
      checkCategory db orderId categoryName value ∧
    (setCategoryDone o categoryName value).number = o.number ∧
    (setCategoryDone o categoryName value).price = o.price ∧
    (setCategoryDone o categoryName value).discount = o.discount ∧
    (setCategoryDone o categoryName value).notes = o.notes ∧
    (setCategoryDone o categoryName value).completed = o.completed ∧
    (setCategoryDone o categoryName value).zone = o.zone ∧
    (setCategoryDone o categoryName value).specialtyOnly = o.specialtyOnly ∧
    (setCategoryDone o categoryName value).timestamp = o.timestamp ∧
    (∀ c ∈ o.categories, c.1 ≠ categoryName →
        c ∈ (setCategoryDone o categoryName value).categories) ∧
    (∀ c ∈ o.categories, c.1 = categoryName →
        (c.1, { c.2 with done := value }) ∈
          (setCategoryDone o categoryName value).categories) := by
  refine ⟨?_, ?_, rfl, rfl, rfl, rfl, rfl, rfl, rfl, rfl, ?_, ?_⟩
  · intro p hp hne
    refine List.mem_map.mpr ⟨p, hp, ?_⟩
    simp [hne]
  · refine List.mem_map.mpr ⟨(orderId, o), h, ?_⟩
    simp
  · intro c hc hne
    refine List.mem_map.mpr ⟨c, hc, ?_⟩
    simp [hne]
  · intro c hc heq
    refine List.mem_map.mpr ⟨c, hc, ?_⟩
    simp [heq]

/-- A one-order database for the completion witnesses. -/
def witnessOrder : StoredOrder :=
  { number := 9
    price := 12
    discount := 0
    notes := ""
    completed := false
    zone := "Bar"
    categories :=
      [("Food", ⟨false, [("Burger", 1)]⟩), ("Drinks", ⟨false, [("Soda", 2)]⟩)]
    specialtyOnly := false
    timestamp := 1 }

/-- C7 witness: toggling "Food" on the one-order database keeps `completed`
and the "Drinks" category intact. -/
theorem checkCategory_frame_witness :
    (setCategoryDone witnessOrder "Food" true).completed =
      witnessOrder.completed ∧
    ("Drinks", (⟨false, [("Soda", 2)]⟩ : CategoryRec)) ∈
      (setCategoryDone witnessOrder "Food" true).categories :=
  ⟨(checkCategory_frame [("o1", witnessOrder)] "o1" "Food" true witnessOrder
      (by simp)).2.2.2.2.2.2.1,
   (checkCategory_frame [("o1", witnessOrder)] "o1" "Food" true witnessOrder
      (by simp)).2.2.2.2.2.2.2.2.2.2.1
     ("Drinks", ⟨false, [("Soda", 2)]⟩) (by decide) (by decide)⟩

/-! ## C8: specialty dual write and undo -/

/-- C8: completing a specialty issues exactly the two writes (specialty
`done` and parent order `categories.Specialty.done`, both `true`), the undo
issues the two symmetric `false` writes, the pair may land in either order
with the same effect, and the undo toast key carries the "specialty" suffix
so it never collides with the order-level toast key of the same
identifier. -/
theorem specialtyDualWrite_spec (orderId : String) :
    (specialtyDualWrite orderId true).length = 2 ∧
    UpdateOp.specialtyDone orderId true ∈ specialtyDualWrite orderId true ∧
    UpdateOp.orderCategoryDone orderId "Specialty" true ∈
      specialtyDualWrite orderId true ∧
    (specialtyDualWrite orderId false).length = 2 ∧
    UpdateOp.specialtyDone orderId false ∈ specialtyDualWrite orderId false ∧
    UpdateOp.orderCategoryDone orderId "Specialty" false ∈
      specialtyDualWrite orderId false ∧
    (∀ (db : Db) (value : Bool),
        applyUpdates db (specialtyDualWrite orderId value) =
          applyUpdates db (specialtyDualWrite orderId value).reverse) ∧
    specialtyNotifId orderId ≠ orderNotifId orderId := by
  refine ⟨rfl, ?_, ?_, rfl, ?_, ?_, ?_, ?_⟩
  · simp [specialtyDualWrite]
  · simp [specialtyDualWrite]
  · simp [specialtyDualWrite]
  · simp [specialtyDualWrite]
  · intro db value
    rfl
  · intro h
    have hlen := congrArg String.length h
    simp [specialtyNotifId, orderNotifId] at hlen
    exact absurd hlen (by decide)

/-! ## C9: order-level completion and the 8-second undo window -/

theorem lookup?_setCompleted (db : OrdersDb) (id : String) (v : Bool) :
    lookup? (setCompleted db id v) id =
      (lookup? db id).map fun o => { o with completed := v } := by
  unfold setCompleted
  induction db with
  | nil => simp
  | cons p rest ih =>
      by_cases hp : p.1 = id
      · simp [hp]
      · simp [hp, ih]

theorem lookup?_filter_of_pred {α : Type} {l : List (String × α)} {k : String}
    {v : α} (pred : String × α → Bool) (h : lookup? l k = some v)
    (hpred : pred (k, v) = true) :
    lookup? (l.filter pred) k = some v := by
  induction l with
  | nil => simp at h
  | cons p rest ih =>
      by_cases hp : p.1 = k
      · rw [lookup?_cons, if_pos hp] at h
        have hpv : p = (k, v) := by
          cases p
          simp_all
        rw [List.filter_cons, hpv, hpred]
        simp
      · rw [lookup?_cons, if_neg hp] at h
        rw [List.filter_cons]
        cases hkeep : pred p
        · simpa using ih h
        · simpa [lookup?_cons, hp] using ih h

theorem lookup?_filter_none {α : Type} {l : List (String × α)} {k : String}
    (pred : String × α → Bool)
    (h : ∀ v', (k, v') ∈ l → pred (k, v') = false) :
    lookup? (l.filter pred) k = none := by
  induction l with
  | nil => simp
  | cons p rest ih =>
      have ihr : lookup? (rest.filter pred) k = none :=
        ih fun v' hv' => h v' (List.mem_cons_of_mem _ hv')
      rw [List.filter_cons]
      cases hkeep : pred p
      · simpa using ihr
      · by_cases hp : p.1 = k
        · have hpv : p = (k, p.2) := by cases p; simp_all
          rw [hpv] at hkeep
          rw [h p.2 (by rw [← hpv]; exact List.mem_cons_self _ _)] at hkeep
          cases hkeep
        · simpa [lookup?_cons, hp] using ihr

theorem mem_objInsert_self_eq {α : Type} {m : List (String × α)} {k : String}
    {v v' : α} (h : (k, v') ∈ objInsert m k v) : v' = v := by
  unfold objInsert at h
  by_cases hs : (lookup? m k).isSome
  · rw [if_pos hs] at h
    rcases List.mem_map.mp h with ⟨p, _, heq⟩
    by_cases hp : p.1 = k
    · rw [if_pos hp] at heq
      injection heq with h1 h2
      exact h2.symm
    · rw [if_neg hp] at heq
      exact absurd (congrArg Prod.fst heq) hp
  · rw [if_neg hs] at h
    rcases List.mem_append.mp h with hm | hm
    · have : k ∈ m.map Prod.fst := List.mem_map.mpr ⟨(k, v'), hm, rfl⟩
      rw [← lookup?_isSome_iff_mem] at this
      exact absurd this hs
    · have := List.mem_singleton.mp hm
      exact congrArg Prod.snd this

/-- C9: completing an order sets `completed = true` and shows the undo
toast; pressing Undo while the toast is live (before the 8-second
auto-close) restores the pre-completion `completed = false` and withdraws
the toast; once the window has lapsed the toast is gone and pressing Undo
is a no-op. -/
theorem completeOrder_undo_spec (s : ServerView) (orderId : String)
    (o : StoredOrder) (t0 now : ℕ)
    (hmem : lookup? s.orders orderId = some o)
    (hpre : o.completed = false) :
    lookup? (completeOrder s orderId t0).orders orderId =
      some { o with completed := true } ∧
    (now < t0 + undoWindowMs →
        undoAvailable (pruneToasts (completeOrder s orderId t0) now) orderId =
          true ∧
        lookup?
            (clickUndo (pruneToasts (completeOrder s orderId t0) now)
              orderId).orders orderId = some o ∧
        undoAvailable
            (clickUndo (pruneToasts (completeOrder s orderId t0) now) orderId)
            orderId = false) ∧
    (t0 + undoWindowMs ≤ now →
        undoAvailable (pruneToasts (completeOrder s orderId t0) now) orderId =
          false ∧
        clickUndo (pruneToasts (completeOrder s orderId t0) now) orderId =
          pruneToasts (completeOrder s orderId t0) now) := by
  have hcompleted :
      lookup? (completeOrder s orderId t0).orders orderId =
        some { o with completed := true } := by
    show lookup? (setCompleted s.orders orderId true) orderId = _
    rw [lookup?_setCompleted, hmem]
    rfl
  refine ⟨hcompleted, ?_, ?_⟩
  · intro hwin
    have htoast :
        lookup? (pruneToasts (completeOrder s orderId t0) now).toasts
            (orderNotifId orderId) = some t0 := by
      show lookup?
          ((objInsert s.toasts (orderNotifId orderId) t0).filter fun p =>
            now < p.2 + undoWindowMs)
          (orderNotifId orderId) = some t0
      exact lookup?_filter_of_pred _ (lookup?_objInsert_self _ _ _)
        (by simpa using hwin)
    have havail :
        undoAvailable (pruneToasts (completeOrder s orderId t0) now) orderId =
          true := by
      unfold undoAvailable
      rw [htoast]
      rfl
    refine ⟨havail, ?_, ?_⟩
    · unfold clickUndo
      rw [havail]
      simp only [if_true]
      show lookup?
          (setCompleted (pruneToasts (completeOrder s orderId t0) now).orders
            orderId false) orderId = some o
      have hpruneOrders :
          (pruneToasts (completeOrder s orderId t0) now).orders =
            setCompleted s.orders orderId true := rfl
      rw [hpruneOrders]
      rw [lookup?_setCompleted, lookup?_setCompleted, hmem]
      have : ({ o with completed := false } : StoredOrder) = o := by
        cases o
        simp_all
      simp [this]
    · unfold clickUndo
      rw [havail]
      simp only [if_true]
      unfold undoAvailable
      show (lookup?
          ((pruneToasts (completeOrder s orderId t0) now).toasts.filter fun p =>
            ¬p.1 = orderNotifId orderId)
          (orderNotifId orderId)).isSome = false
      rw [lookup?_filter_none _ fun v' _ => by simp]
      rfl
  · intro hlate
    have hnone :
        lookup? (pruneToasts (completeOrder s orderId t0) now).toasts
            (orderNotifId orderId) = none := by
      show lookup?
          ((objInsert s.toasts (orderNotifId orderId) t0).filter fun p =>
            now < p.2 + undoWindowMs)
          (orderNotifId orderId) = none
      refine lookup?_filter_none _ fun v' hv' => ?_
      have hv0 : v' = t0 := mem_objInsert_self_eq hv'
      subst hv0
      simpa using Nat.not_lt.mpr hlate
    have hna :
        undoAvailable (pruneToasts (completeOrder s orderId t0) now) orderId =
          false := by
      unfold undoAvailable
      rw [hnone]
      rfl
    refine ⟨hna, ?_⟩
    unfold clickUndo
    rw [hna]
    simp

/-- C9 witness: on a one-order view, complete at time 0, undo at 5000 ms —
inside the window — and observe the original order restored. -/
theorem completeOrder_undo_spec_witness :
    lookup?
        (clickUndo (pruneToasts (completeOrder ⟨[("a", witnessOrder)], []⟩ "a" 0)
            5000) "a").orders "a" = some witnessOrder :=
  ((completeOrder_undo_spec ⟨[("a", witnessOrder)], []⟩ "a" witnessOrder 0 5000
      (by simp [lookup?]) rfl).2.1 (by decide)).2.1

/-! ## C6: audit-view analytics -/

theorem lookup0_objInsert_self (m : List (String × ℚ)) (k : String) (v : ℚ) :
    lookup0 (objInsert m k v) k = v := by
  simp [lookup0]

theorem lookup0_objInsert_ne (m : List (String × ℚ)) {k k' : String} (v : ℚ)
    (h : k' ≠ k) : lookup0 (objInsert m k v) k' = lookup0 m k' := by
  simp [lookup0, lookup?_objInsert_ne m v h]

theorem lookup0_bump_self (m : List (String × ℚ)) (k : String) (δ : ℚ) :
    lookup0 (bumpEntry m k δ) k = lookup0 m k + δ :=
  lookup0_objInsert_self m k _

theorem lookup0_bump_ne (m : List (String × ℚ)) {k k' : String} (δ : ℚ)
    (h : k' ≠ k) : lookup0 (bumpEntry m k δ) k' = lookup0 m k' :=
  lookup0_objInsert_ne m _ h

theorem itemStep_self (m : List (String × ℚ)) (n : String) (q : ℕ) :
    lookup0 (itemStep m n q) n = lookup0 m n + q :=
  lookup0_objInsert_self _ n _

theorem itemStep_totalItems (m : List (String × ℚ)) {n : String} (q : ℕ)
    (hn : n ≠ totalItemsKey) :
    lookup0 (itemStep m n q) totalItemsKey = lookup0 m totalItemsKey + q := by
  unfold itemStep
  rw [lookup0_objInsert_ne _ _ (fun h => hn h.symm), lookup0_objInsert_self]

theorem itemStep_other (m : List (String × ℚ)) {n x : String} (q : ℕ)
    (hx1 : x ≠ n) (hx2 : x ≠ totalItemsKey) :
    lookup0 (itemStep m n q) x = lookup0 m x := by
  unfold itemStep
  rw [lookup0_objInsert_ne _ _ hx1, lookup0_objInsert_ne _ _ hx2]

theorem itemsFold_other (es : List (String × ℕ)) {x : String}
    (hx : x ≠ totalItemsKey) :
    ∀ m : List (String × ℚ),
      lookup0 (itemsFold m es) x =
        lookup0 m x +
          ((es.filter fun e => e.1 = x).map fun e => (e.2 : ℚ)).sum := by
  induction es with
  | nil => intro m; simp [itemsFold]
  | cons e rest ih =>
      intro m
      show lookup0 (itemsFold (itemStep m e.1 e.2) rest) x = _
      rw [ih (itemStep m e.1 e.2), List.filter_cons]
      by_cases he : e.1 = x
      · rw [← he] at hx ⊢
        rw [itemStep_self]
        simp [add_assoc]
      · have : ¬x = e.1 := fun h => he h.symm
        rw [itemStep_other m e.2 this hx]
        simp [he]

theorem itemsFold_totalItems (es : List (String × ℕ))
    (hni : totalItemsKey ∉ es.map Prod.fst) :
    ∀ m : List (String × ℚ),
      lookup0 (itemsFold m es) totalItemsKey =
        lookup0 m totalItemsKey + (es.map fun e => (e.2 : ℚ)).sum := by
  induction es with
  | nil => intro m; simp [itemsFold]
  | cons e rest ih =>
      intro m
      have hne : e.1 ≠ totalItemsKey := by
        intro h
        exact hni (by simp [← h])
      have hrest : totalItemsKey ∉ rest.map Prod.fst := by
        intro h
        exact hni (by simp [h])
      show lookup0 (itemsFold (itemStep m e.1 e.2) rest) totalItemsKey = _
      rw [ih hrest (itemStep m e.1 e.2), itemStep_totalItems m e.2 hne]
      simp [add_assoc]

theorem catsFold_other (cats : List (String × CategoryRec)) {x : String}
    (hx : x ≠ totalItemsKey) :
    ∀ m : List (String × ℚ),
      lookup0 (cats.foldl (fun m c => itemsFold m c.2.items) m) x =
        lookup0 m x +
          (cats.map fun c =>
              ((c.2.items.filter fun e => e.1 = x).map fun e => (e.2 : ℚ)).sum).sum := by
  induction cats with
  | nil => intro m; simp
  | cons c rest ih =>
      intro m
      rw [List.foldl_cons, ih (itemsFold m c.2.items), itemsFold_other c.2.items hx]
      simp [add_assoc]

theorem catsFold_totalItems (cats : List (String × CategoryRec))
    (hni : ∀ c ∈ cats, totalItemsKey ∉ c.2.items.map Prod.fst) :
    ∀ m : List (String × ℚ),
      lookup0 (cats.foldl (fun m c => itemsFold m c.2.items) m) totalItemsKey =
        lookup0 m totalItemsKey +
          (cats.map fun c => (c.2.items.map fun e => (e.2 : ℚ)).sum).sum := by
  induction cats with
  | nil => intro m; simp
  | cons c rest ih =>
      intro m
      rw [List.foldl_cons,
        ih (fun c hc => hni c (List.mem_cons_of_mem _ hc)) (itemsFold m c.2.items),
        itemsFold_totalItems c.2.items (hni c (List.mem_cons_self _ _))]
      simp [add_assoc]

theorem filterSum_zero_of_reserved {o : StoredOrder} {x : String}
    (hallne : ∀ c ∈ o.categories, ∀ e ∈ c.2.items, e.1 ≠ x) :
    (o.categories.map fun c =>
        ((c.2.items.filter fun e => e.1 = x).map fun e => (e.2 : ℚ)).sum).sum = 0 := by
  refine List.sum_eq_zero ?_
  intro q hq
  rcases List.mem_map.mp hq with ⟨c, hc, rfl⟩
  have hnil : (c.2.items.filter fun e => e.1 = x) = [] := by
    refine List.filter_eq_nil_iff.mpr ?_
    intro e he
    simpa using hallne c hc e he
  rw [hnil]
  simp

theorem analyticsStep_totalOrders (m : List (String × ℚ)) (o : StoredOrder)
    (hres : noReservedItemNames o) :
    lookup0 (analyticsStep m o) totalOrdersKey =
      lookup0 m totalOrdersKey + 1 := by
  unfold analyticsStep
  rw [catsFold_other o.categories
      (show totalOrdersKey ≠ totalItemsKey by decide) _,
    filterSum_zero_of_reserved (fun c hc e he => (hres c hc e he).1),
    add_zero,
    lookup0_bump_ne _ _ (show totalOrdersKey ≠ totalRevenueKey by decide),
    lookup0_bump_self]

theorem analyticsStep_totalRevenue (m : List (String × ℚ)) (o : StoredOrder)
    (hres : noReservedItemNames o) :
    lookup0 (analyticsStep m o) totalRevenueKey =
      lookup0 m totalRevenueKey + o.price := by
  unfold analyticsStep
  rw [catsFold_other o.categories
      (show totalRevenueKey ≠ totalItemsKey by decide) _,
    filterSum_zero_of_reserved (fun c hc e he => (hres c hc e he).2.2),
    add_zero, lookup0_bump_self,
    lookup0_bump_ne _ _ (show totalRevenueKey ≠ totalOrdersKey by decide)]

theorem analyticsStep_totalItems (m : List (String × ℚ)) (o : StoredOrder)
    (hres : noReservedItemNames o) :
    lookup0 (analyticsStep m o) totalItemsKey =
      lookup0 m totalItemsKey + orderQty o := by
  unfold analyticsStep
  rw [catsFold_totalItems o.categories
      (fun c hc h => by
        rcases List.mem_map.mp h with ⟨e, he, heq⟩
        exact (hres c hc e he).2.1 heq) _,
    lookup0_bump_ne _ _ (show totalItemsKey ≠ totalRevenueKey by decide),
    lookup0_bump_ne _ _ (show totalItemsKey ≠ totalOrdersKey by decide)]
  rfl

theorem analyticsStep_item (m : List (String × ℚ)) (o : StoredOrder)
    {x : String} (hx1 : x ≠ totalOrdersKey) (hx2 : x ≠ totalItemsKey)
    (hx3 : x ≠ totalRevenueKey) :
    lookup0 (analyticsStep m o) x = lookup0 m x + orderItemQty o x := by
  unfold analyticsStep
  rw [catsFold_other o.categories hx2 _, lookup0_bump_ne _ _ hx3,
    lookup0_bump_ne _ _ hx1]
  rfl

theorem analyticsFold_totalOrders (orders : List StoredOrder)
    (hres : ∀ o ∈ orders, noReservedItemNames o) :
    ∀ m : List (String × ℚ),
      lookup0 (orders.foldl analyticsStep m) totalOrdersKey =
        lookup0 m totalOrdersKey + (orders.length : ℚ) := by
  induction orders with
  | nil => intro m; simp
  | cons o rest ih =>
      intro m
      rw [List.foldl_cons,
        ih (fun o' h => hres o' (List.mem_cons_of_mem _ h)) _,
        analyticsStep_totalOrders m o (hres o (List.mem_cons_self _ _))]
      simp only [List.length_cons]
      push_cast
      ring

theorem analyticsFold_totalRevenue (orders : List StoredOrder)
    (hres : ∀ o ∈ orders, noReservedItemNames o) :
    ∀ m : List (String × ℚ),
      lookup0 (orders.foldl analyticsStep m) totalRevenueKey =
        lookup0 m totalRevenueKey + (orders.map StoredOrder.price).sum := by
  induction orders with
  | nil => intro m; simp
  | cons o rest ih =>
      intro m
      rw [List.foldl_cons,
        ih (fun o' h => hres o' (List.mem_cons_of_mem _ h)) _,
        analyticsStep_totalRevenue m o (hres o (List.mem_cons_self _ _))]
      simp [add_assoc]

theorem analyticsFold_totalItems (orders : List StoredOrder)
    (hres : ∀ o ∈ orders, noReservedItemNames o) :
    ∀ m : List (String × ℚ),
      lookup0 (orders.foldl analyticsStep m) totalItemsKey =
        lookup0 m totalItemsKey + (orders.map orderQty).sum := by
  induction orders with
  | nil => intro m; simp
  | cons o rest ih =>
      intro m
      rw [List.foldl_cons,
        ih (fun o' h => hres o' (List.mem_cons_of_mem _ h)) _,
        analyticsStep_totalItems m o (hres o (List.mem_cons_self _ _))]
      simp [add_assoc]

theorem analyticsFold_item (orders : List StoredOrder) {x : String}
    (hx1 : x ≠ totalOrdersKey) (hx2 : x ≠ totalItemsKey)
    (hx3 : x ≠ totalRevenueKey) :
    ∀ m : List (String × ℚ),
      lookup0 (orders.foldl analyticsStep m) x =
        lookup0 m x + (orders.map fun o => orderItemQty o x).sum := by
  induction orders with
  | nil => intro m; simp
  | cons o rest ih =>
      intro m
      rw [List.foldl_cons, ih _, analyticsStep_item m o hx1 hx2 hx3]
      simp [add_assoc]

theorem objInsert_values_zero {m : List (String × ℚ)} {k : String} {v : ℚ}
    (h : ∀ p ∈ m, p.2 = 0) (hv : v = 0) :
    ∀ p ∈ objInsert m k v, p.2 = 0 := by
  intro p hp
  unfold objInsert at hp
  by_cases hs : (lookup? m k).isSome
  · rw [if_pos hs] at hp
    rcases List.mem_map.mp hp with ⟨q, hq, heq⟩
    by_cases hqk : q.1 = k
    · rw [if_pos hqk] at heq
      rw [← heq]
      exact hv
    · rw [if_neg hqk] at heq
      rw [← heq]
      exact h q hq
  · rw [if_neg hs] at hp
    rcases List.mem_append.mp hp with hm | hm
    · exact h p hm
    · rw [List.mem_singleton.mp hm]
      exact hv

theorem foldl_objInsert_values_zero (l : List (String × ℚ))
    (hl : ∀ p ∈ l, p.2 = 0) :
    ∀ acc : List (String × ℚ), (∀ p ∈ acc, p.2 = 0) →
      ∀ p ∈ l.foldl (fun m p => objInsert m p.1 p.2) acc, p.2 = 0 := by
  induction l with
  | nil => intro acc hacc; exact hacc
  | cons q rest ih =>
      intro acc hacc
      rw [List.foldl_cons]
      exact ih (fun p hp => hl p (List.mem_cons_of_mem _ hp))
        (objInsert acc q.1 q.2)
        (objInsert_values_zero hacc (hl q (List.mem_cons_self _ _)))

theorem seed_values (menu : Menu) : ∀ p ∈ seedAnalytics menu, p.2 = 0 := by
  unfold seedAnalytics
  refine foldl_objInsert_values_zero _ ?_ _ ?_
  · intro p hp
    rcases List.mem_flatMap.mp hp with ⟨c, _, hc⟩
    rcases List.mem_map.mp hc with ⟨i, _, heq⟩
    rw [← heq]
  · intro p hp
    simp only [List.mem_cons, List.not_mem_nil, or_false] at hp
    rcases hp with h | h | h <;> rw [h]

theorem lookup?_mem {α : Type} {m : List (String × α)} {k : String} {v : α}
    (h : lookup? m k = some v) : (k, v) ∈ m := by
  induction m with
  | nil => simp at h
  | cons p rest ih =>
      by_cases hp : p.1 = k
      · rw [lookup?_cons, if_pos hp] at h
        injection h with h'
        have : p = (k, v) := by
          cases p
          simp_all
        rw [this]
        exact List.mem_cons_self _ _
      ·  exact List.mem_cons_of_mem _ (ih (by rwa [lookup?_cons, if_neg hp] at h))

theorem seed_lookup0 (menu : Menu) (k : String) :
    lookup0 (seedAnalytics menu) k = 0 := by
  unfold lookup0
  cases h : lookup? (seedAnalytics menu) k with
  | none => rfl
  | some v =>
      have hv := seed_values menu (k, v) (lookup?_mem h)
      simpa using hv

theorem mem_keys_foldl (l : List (String × ℚ)) :
    ∀ (acc : List (String × ℚ)) (x : String),
      (x ∈ acc.map Prod.fst ∨ x ∈ l.map Prod.fst) →
      x ∈ (l.foldl (fun m p => objInsert m p.1 p.2) acc).map Prod.fst := by
  induction l with
  | nil =>
      intro acc x h
      rcases h with h | h
      · exact h
      · simp at h
  | cons p rest ih =>
      intro acc x h
      rw [List.foldl_cons]
      refine ih _ x ?_
      rcases h with h | h
      · exact Or.inl ((mem_keys_objInsert acc p.1 p.2 x).mpr (Or.inl h))
      · rw [List.map_cons] at h
        rcases List.mem_cons.mp h with h | h
        · exact Or.inl ((mem_keys_objInsert acc p.1 p.2 x).mpr (Or.inr h))
        · exact Or.inr h

theorem keys_objInsert_mono {α : Type} {m : List (String × α)} {x : String}
    (k : String) (v : α) (h : x ∈ m.map Prod.fst) :
    x ∈ (objInsert m k v).map Prod.fst :=
  (mem_keys_objInsert m k v x).mpr (Or.inl h)

theorem keys_itemsFold_mono (es : List (String × ℕ)) {x : String} :
    ∀ m : List (String × ℚ), x ∈ m.map Prod.fst →
      x ∈ (itemsFold m es).map Prod.fst := by
  induction es with
  | nil => intro m h; exact h
  | cons e rest ih =>
      intro m h
      exact ih _ (keys_objInsert_mono _ _ (keys_objInsert_mono _ _ h))

theorem keys_analyticsStep_mono {x : String} (o : StoredOrder) :
    ∀ m : List (String × ℚ), x ∈ m.map Prod.fst →
      x ∈ (analyticsStep m o).map Prod.fst := by
  unfold analyticsStep
  suffices hcats : ∀ (cats : List (String × CategoryRec))
      (m : List (String × ℚ)), x ∈ m.map Prod.fst →
      x ∈ (cats.foldl (fun m c => itemsFold m c.2.items) m).map Prod.fst by
    intro m h
    exact hcats o.categories _
      (keys_objInsert_mono _ _ (keys_objInsert_mono _ _ h))
  intro cats
  induction cats with
  | nil => intro m h; exact h
  | cons c rest ih =>
      intro m h
      exact ih _ (keys_itemsFold_mono c.2.items m h)

theorem keys_analytics_mono (orders : List StoredOrder) {x : String} :
    ∀ m : List (String × ℚ), x ∈ m.map Prod.fst →
      x ∈ (orders.foldl analyticsStep m).map Prod.fst := by
  induction orders with
  | nil => intro m h; exact h
  | cons o rest ih =>
      intro m h
      exact ih _ (keys_analyticsStep_mono o m h)

/-- A snapshot whose one order sells an item literally named
"Total Orders". -/
def reservedOrder : StoredOrder :=
  { number := 1
    price := 5
    discount := 0
    notes := ""
    completed := false
    zone := "Bar"
    categories := [("Food", ⟨false, [("Total Orders", 1)]⟩)]
    specialtyOnly := false
    timestamp := 1 }

/-- C6 counterexample: the audit view keeps the three counters and the
per-item counts in one flat string-keyed map, so an order selling an item
named "Total Orders" adds its quantity onto the order counter — for this
one-order snapshot the aggregate's order count is 2, not the snapshot's
order count, refuting the claim as universally stated. -/
theorem analytics_reserved_counterexample :
    lookup0 (analytics [] [reservedOrder]) totalOrdersKey ≠
      (([reservedOrder].length : ℕ) : ℚ) := by
  simp [analytics, analyticsStep, seedAnalytics, itemsFold, itemStep, bumpEntry,
    objInsert, lookup0, lookup?, reservedOrder, totalOrdersKey, totalItemsKey,
    totalRevenueKey]

/-- C6 (amended): against a snapshot of all orders in which no sold item is
named after one of the three reserved aggregate keys "Total Orders",
"Total Items" or "Total Revenue", the audit aggregate has total order count
= number of orders, total revenue = sum of order prices, total item count =
sum of every quantity across all categories of all orders, and — for any
item name distinct from those three reserved keys — cumulative quantity =
the sum of that item's quantities over all orders; every catalog item is
present in the aggregate even when never sold. -/
theorem analytics_spec (menu : Menu) (orders : List StoredOrder) (x : String)
    (hres : ∀ o ∈ orders, noReservedItemNames o)
    (hx1 : x ≠ totalOrdersKey) (hx2 : x ≠ totalItemsKey)
    (hx3 : x ≠ totalRevenueKey) :
    lookup0 (analytics menu orders) totalOrdersKey = (orders.length : ℚ) ∧
    lookup0 (analytics menu orders) totalRevenueKey =
      (orders.map StoredOrder.price).sum ∧
    lookup0 (analytics menu orders) totalItemsKey =
      (orders.map orderQty).sum ∧
    lookup0 (analytics menu orders) x =
      (orders.map fun o => orderItemQty o x).sum ∧
    ∀ c ∈ menu, ∀ i ∈ c.items,
      i.itemName ∈ (analytics menu orders).map Prod.fst := by
  refine ⟨?_, ?_, ?_, ?_, ?_⟩
  · rw [show analytics menu orders = orders.foldl analyticsStep (seedAnalytics menu)
        from rfl,
      analyticsFold_totalOrders orders hres _, seed_lookup0, zero_add]
  · rw [show analytics menu orders = orders.foldl analyticsStep (seedAnalytics menu)
        from rfl,
      analyticsFold_totalRevenue orders hres _, seed_lookup0, zero_add]
  · rw [show analytics menu orders = orders.foldl analyticsStep (seedAnalytics menu)
        from rfl,
      analyticsFold_totalItems orders hres _, seed_lookup0, zero_add]
  · rw [show analytics menu orders = orders.foldl analyticsStep (seedAnalytics menu)
        from rfl,
      analyticsFold_item orders hx1 hx2 hx3 _, seed_lookup0, zero_add]
  · intro c hc i hi
    refine keys_analytics_mono orders _ ?_
    unfold seedAnalytics
    refine mem_keys_foldl _ _ _ (Or.inr ?_)
    refine List.mem_map.mpr ⟨(i.itemName, 0), ?_, rfl⟩
    exact List.mem_flatMap.mpr ⟨c, hc, List.mem_map.mpr ⟨i, hi, rfl⟩⟩

instance (o : StoredOrder) : Decidable (noReservedItemNames o) := by
  unfold noReservedItemNames
  infer_instance

/-- A one-order snapshot for the audit witness. -/
def auditOrder : StoredOrder :=
  { number := 3
    price := 22
    discount := 0
    notes := ""
    completed := true
    zone := "Bar"
    categories :=
      [("Food", ⟨true, [("Burger", 2)]⟩), ("Drinks", ⟨false, [("Soda", 1)]⟩)]
    specialtyOnly := false
    timestamp := 2 }

/-- C6 witness: the aggregate over a one-order snapshot counts one order. -/
theorem analytics_spec_witness :
    lookup0 (analytics scenarioMenu [auditOrder]) totalOrdersKey =
      (([auditOrder].length : ℕ) : ℚ) :=
  (analytics_spec scenarioMenu [auditOrder] "Fries" (by decide) (by decide)
      (by decide) (by decide)).1

end AnicafeMenu
